import Mathlib

/-!
Verification of the SOP-gen document core (src/sopgen/models.py,
src/sopgen/export.py, src/sopgen/translation.py) against its
natural-language specification.

The Python code is shallowly embedded: dataclasses become structures,
in-place mutation becomes explicit state passing (each method returns the
new `Document`), `datetime.now()` becomes an explicit abstract clock value
of type `Nat` threaded into the operations that read the clock, and
Python dictionaries become association lists.  Code paths that can raise
(the spreadsheet table parser) return `Except`.
-/

namespace Sopgen

/-- Embedding of the `Section` dataclass of src/sopgen/models.py. -/
structure Section where
  title : String
  content : String
  content_type : String
  ai_generated : Bool
  locked : Bool
  order : Int
  metadata : List (String × String)
deriving DecidableEq

/-- Embedding of the `DocumentVersion` dataclass of src/sopgen/models.py.
Timestamps are abstract clock readings modelled as `Nat`. -/
structure DocumentVersion where
  version_id : Nat
  timestamp : Nat
  user : String
  role : String
  changes : String
  content_snapshot : List Section
deriving DecidableEq

/-- Embedding of the `Document` dataclass of src/sopgen/models.py. -/
structure Document where
  title : String
  doc_number : String
  sections : List Section
  created_by : String
  created_at : Nat
  last_modified : Nat
  versions : List DocumentVersion
  approved : Bool
  approver : Option String
  metadata : List (String × String)
  template_name : String
deriving DecidableEq

/-- `Document(title=t)` with the dataclass defaults, at clock reading `now`
(`created_at` and `last_modified` default to `datetime.now()`). -/
def mkDocument (title : String) (now : Nat) : Document :=
  ⟨title, "", [], "", now, now, [], false, none, [], ""⟩

/-- One step of the stable insertion used to model the stable Python
`list.sort(key=lambda x: x.order)`: a section is inserted after every
element whose `order` does not exceed its own, which is exactly the
stable placement. -/
def insertByOrder (s : Section) : List Section → List Section
  | [] => [s]
  | t :: ts => if s.order < t.order then s :: t :: ts else t :: insertByOrder s ts

/-- Model of `self.sections.sort(key=lambda x: x.order)`: any two stable
sorts agree extensionally, so a stable insertion sort is a faithful model
of the Timsort used by Python. -/
def sortByOrder (l : List Section) : List Section :=
  l.foldl (fun acc s => insertByOrder s acc) []

/-- Embedding of `Document.add_section` (models.py lines 78-83): a fresh
`Section` with the dataclass defaults for the unsupplied fields is
appended, and the list is re-sorted by `order`. -/
def add_section (d : Document) (title content content_type : String)
    (order : Option Int) : Document :=
  let o := match order with
    | none => Int.ofNat d.sections.length
    | some o => o
  { d with sections :=
      sortByOrder (d.sections ++ [⟨title, content, content_type, false, false, o, []⟩]) }

/-- Embedding of `Document._reorder_sections` (models.py lines 121-124):
`for idx, sec in enumerate(self.sections): sec.order = idx`. -/
def reorderFrom (i : Nat) : List Section → List Section
  | [] => []
  | s :: rest => { s with order := Int.ofNat i } :: reorderFrom (i + 1) rest

/-- Embedding of `Document.remove_section` (models.py lines 85-88). -/
def remove_section (d : Document) (title : String) : Document :=
  { d with sections := reorderFrom 0 (d.sections.filter (fun sec => sec.title ≠ title)) }

/-- Embedding of `Document.get_section` (models.py lines 90-92): first
section with a matching title. -/
def get_section (d : Document) (title : String) : Option Section :=
  d.sections.find? (fun sec => sec.title == title)

/-- In-place mutation of the first section whose title matches: the object
returned by `get_section` is an alias into `d.sections`, so assigning its
fields rewrites that list entry. -/
def updateFirst (title content : String) (ai : Bool) : List Section → List Section
  | [] => []
  | s :: rest =>
    if s.title == title then { s with content := content, ai_generated := ai } :: rest
    else s :: updateFirst title content ai rest

/-- Embedding of `Document.update_section` (models.py lines 94-102).  The
returned `Bool` is the Python return value; the returned `Document` is the
post-state. -/
def update_section (d : Document) (title content : String) (ai_generated : Bool)
    (now : Nat) : Document × Bool :=
  match d.sections.find? (fun sec => sec.title == title) with
  | none => (d, false)
  | some s =>
    if s.locked then (d, false)
    else ({ d with sections := updateFirst title content ai_generated d.sections,
                   last_modified := now }, true)

/-- Embedding of `Document.log_version` (models.py lines 104-111).
`Section(**asdict(sec))` is a genuine deep copy (field values are strings,
booleans, ints and a dict that `asdict` deep-copies), which in this value
model is just the list itself. -/
def log_version (d : Document) (user role changes : String) (now : Nat) : Document :=
  { d with
      versions := d.versions ++
        [⟨d.versions.length + 1, now, user, role, changes, d.sections⟩],
      last_modified := now }

/-- Embedding of `Document.approve` (models.py lines 113-119). -/
def approve (d : Document) (user : String) (now : Nat) : Document :=
  let d1 := { d with
    approved := true,
    approver := some user,
    sections := d.sections.map (fun sec => { sec with locked := true }) }
  log_version d1 user "approver" "Document approved" now

/-- The public mutating methods of `Document`, as a syntax of operations.
Operations that read `datetime.now()` carry the clock reading they
observe. -/
inductive Op where
  | add (title content content_type : String) (order : Option Int)
  | remove (title : String)
  | update (title content : String) (ai : Bool) (now : Nat)
  | log (user role changes : String) (now : Nat)
  | approveOp (user : String) (now : Nat)
deriving DecidableEq

/-- Interpretation of one operation. -/
def applyOp (d : Document) : Op → Document
  | Op.add t c ct o => add_section d t c ct o
  | Op.remove t => remove_section d t
  | Op.update t c ai now => (update_section d t c ai now).1
  | Op.log u r ch now => log_version d u r ch now
  | Op.approveOp u now => approve d u now

/-- Interpretation of a sequence of operations, first operation first. -/
def applyOps (d : Document) : List Op → Document
  | [] => d
  | op :: rest => applyOps (applyOp d op) rest

/-! ### String helpers modelling the Python string primitives used by the
exporter and the translator.  They are written over `List Char` so that
every concrete evaluation is plain structural reduction. -/

/-- The whitespace characters stripped by the Python `str.strip()` method. -/
def isPySpace (c : Char) : Bool :=
  c = ' ' || c = '\t' || c = '\n' || c = '\r' || c = '\x0b' || c = '\x0c'

/-- Model of Python `str.strip()`. -/
def pyStrip (s : String) : String :=
  String.mk (((s.data.dropWhile isPySpace).reverse.dropWhile isPySpace).reverse)

/-- Model of Python `str.strip('|')`. -/
def pyStripPipes (s : String) : String :=
  String.mk (((s.data.dropWhile (fun c => c = '|')).reverse.dropWhile
    (fun c => c = '|')).reverse)

/-- Split a character list at every occurrence of one separator character;
model of Python `str.split(sep)` for a one-character separator. -/
def splitOnChar (sep : Char) : List Char → List (List Char)
  | [] => [[]]
  | c :: rest =>
    match splitOnChar sep rest with
    | [] => [[c]]
    | g :: gs => if c = sep then [] :: g :: gs else (c :: g) :: gs

/-- Model of Python `str.split(sep)` for a one-character separator,
producing strings. -/
def pySplit (s : String) (sep : Char) : List String :=
  (splitOnChar sep s.data).map String.mk

/-- Split at every non-overlapping occurrence of a double newline; model
of Python `text.split("\n\n")` in `DocumentTranslator._split_text`. -/
def splitOnNlNl : List Char → List (List Char)
  | '\n' :: '\n' :: rest => [] :: splitOnNlNl rest
  | c :: rest =>
    match splitOnNlNl rest with
    | [] => [[c]]
    | g :: gs => (c :: g) :: gs
  | [] => [[]]

/-- ASCII lowering of one character, the fragment of Python `str.lower()`
exercised by format tags. -/
def charLower (c : Char) : Char :=
  if 65 ≤ c.toNat && c.toNat ≤ 90 then Char.ofNat (c.toNat + 32) else c

/-- Model of Python `str.lower()` on ASCII strings. -/
def pyLower (s : String) : String := String.mk (s.data.map charLower)

/-- Model of Python `s[:n]` (character slice). -/
def pyTake (n : Nat) (s : String) : String := String.mk (s.data.take n)

/-- Model of Python `s.startswith('|')`. -/
def startsWithPipe (s : String) : Bool :=
  match s.data with
  | [] => false
  | c :: _ => c = '|'

/-- Model of Python `sep.join(lines)`. -/
def joinWith (sep : String) : List String → String
  | [] => ""
  | [x] => x
  | x :: y :: rest => x ++ sep ++ joinWith sep (y :: rest)

/-- Little-endian decimal digits of a natural number, with explicit fuel
so that the recursion is structural (the fuel `n` itself always
suffices). -/
def natDigitsAux : Nat → Nat → List Nat
  | 0, _ => []
  | _ + 1, 0 => []
  | fuel + 1, n + 1 => ((n + 1) % 10) :: natDigitsAux fuel ((n + 1) / 10)

/-- Little-endian decimal digits of `n`. -/
def natDigits (n : Nat) : List Nat := natDigitsAux n n

/-- Value of a little-endian decimal digit list. -/
def ofDigitsNat : List Nat → Nat
  | [] => 0
  | d :: ds => d + 10 * ofDigitsNat ds

/-- Decimal rendering of an abstract clock reading; model of the lossless
textual timestamp encodings of the Python code (`datetime.isoformat`,
`strftime`, `str(count)` — all injective renderings of the underlying
value). -/
def decRepr (n : Nat) : String :=
  String.mk ((natDigits n).reverse.map (fun d => Char.ofNat (48 + d)))

/-- Decimal parsing, the model of `datetime.fromisoformat` (the exact
left inverse of the rendering on rendered values). -/
def decParse (s : String) : Nat :=
  ofDigitsNat ((s.data.map (fun c => c.toNat - 48)).reverse)

/-! ### Serialization (models.py `to_dict` / `from_dict`).  Python
dictionaries with a fixed key set are modelled as structures whose fields
are those keys; timestamps are serialized to their textual rendering. -/

/-- The dictionary produced by `Section.to_dict` (models.py lines 24-26). -/
structure SectionDict where
  title : String
  content : String
  content_type : String
  ai_generated : Bool
  locked : Bool
  order : Int
  metadata : List (String × String)
deriving DecidableEq

/-- Embedding of `Section.to_dict` (`asdict(self)`). -/
def Section.to_dict (s : Section) : SectionDict :=
  ⟨s.title, s.content, s.content_type, s.ai_generated, s.locked, s.order, s.metadata⟩

/-- Embedding of `Section.from_dict` (`cls(**data)`). -/
def Section.from_dict (d : SectionDict) : Section :=
  ⟨d.title, d.content, d.content_type, d.ai_generated, d.locked, d.order, d.metadata⟩

/-- The dictionary produced by `DocumentVersion.to_dict` (models.py lines
44-53); `timestamp` is the ISO-8601 string. -/
structure DocumentVersionDict where
  version_id : Nat
  timestamp : String
  user : String
  role : String
  changes : String
  content_snapshot : List SectionDict
deriving DecidableEq

/-- Embedding of `DocumentVersion.to_dict` (models.py lines 44-53). -/
def DocumentVersion.to_dict (v : DocumentVersion) : DocumentVersionDict :=
  ⟨v.version_id, decRepr v.timestamp, v.user, v.role, v.changes,
   v.content_snapshot.map Section.to_dict⟩

/-- Embedding of `DocumentVersion.from_dict` (models.py lines 55-60). -/
def DocumentVersion.from_dict (d : DocumentVersionDict) : DocumentVersion :=
  ⟨d.version_id, decParse d.timestamp, d.user, d.role, d.changes,
   d.content_snapshot.map Section.from_dict⟩

/-- The dictionary produced by `Document.to_dict` (models.py lines
126-140). -/
structure DocumentDict where
  title : String
  doc_number : String
  sections : List SectionDict
  created_by : String
  created_at : String
  last_modified : String
  versions : List DocumentVersionDict
  approved : Bool
  approver : Option String
  metadata : List (String × String)
  template_name : String
deriving DecidableEq

/-- Embedding of `Document.to_dict` (models.py lines 126-140). -/
def Document.to_dict (doc : Document) : DocumentDict :=
  ⟨doc.title, doc.doc_number, doc.sections.map Section.to_dict, doc.created_by,
   decRepr doc.created_at, decRepr doc.last_modified,
   doc.versions.map DocumentVersion.to_dict, doc.approved, doc.approver,
   doc.metadata, doc.template_name⟩

/-- Embedding of `Document.from_dict` (models.py lines 142-149). -/
def Document.from_dict (d : DocumentDict) : Document :=
  ⟨d.title, d.doc_number, d.sections.map Section.from_dict, d.created_by,
   decParse d.created_at, decParse d.last_modified,
   d.versions.map DocumentVersion.from_dict, d.approved, d.approver,
   d.metadata, d.template_name⟩

/-! ### Exporter (src/sopgen/export.py).  Metadata values are strings in
this model; Python truthiness of a value is non-emptiness. -/

/-- `doc.metadata.get(key)` on the association-list model of the
metadata dictionary. -/
def mdGet (m : List (String × String)) (key : String) : Option String :=
  (m.find? (fun p => p.1 == key)).map (fun p => p.2)

/-- One optional metadata line of the markdown header
(`if doc.metadata.get(k): md_lines.append(f"**L:** {v}\n")`). -/
def metaLine (m : List (String × String)) (key label : String) : List String :=
  match mdGet m key with
  | none => []
  | some v => if v ≠ "" then [label ++ v ++ "\n"] else []

/-- The body lines appended for one section by `to_markdown` (export.py
lines 67-86): empty or whitespace-only content is skipped, otherwise a
heading, a `content_type`-dispatched body and a blank separator. -/
def sectionLines (sec : Section) : List String :=
  if pyStrip sec.content = "" then []
  else
    ["## " ++ sec.title ++ "\n"] ++
    (if sec.content_type = "text" then [sec.content]
     else if sec.content_type = "image" then
       ["![" ++ sec.title ++ "](" ++ sec.content ++ ")"]
     else if sec.content_type = "table" then [sec.content]
     else if sec.content_type = "flowchart" then
       ["```mermaid\n" ++ sec.content ++ "\n```"]
     else if sec.content_type = "latex" then
       ["$$\n" ++ sec.content ++ "\n$$"]
     else []) ++
    ["\n\n"]

/-- The lines of `to_markdown` accumulated before the footer (export.py
lines 47-86); a function of the document alone. -/
def bodyLines (doc : Document) : List String :=
  ["# " ++ doc.title ++ "\n"] ++
  (if doc.doc_number ≠ "" then ["**Document Number:** " ++ doc.doc_number ++ "\n"]
   else []) ++
  (if doc.metadata ≠ [] then
    metaLine doc.metadata "company" "**Company:** " ++
    metaLine doc.metadata "revision" "**Revision:** " ++
    metaLine doc.metadata "effective_date" "**Effective Date:** "
   else []) ++
  ["\n---\n\n"] ++
  List.flatten (doc.sections.map sectionLines)

/-- The footer lines of `to_markdown` (export.py lines 89-92); they embed
`datetime.now()`, modelled as the clock reading `now`. -/
def footerLines (doc : Document) (now : Nat) : List String :=
  ["---\n", "\n*Document generated on " ++ decRepr now ++ "*\n"] ++
  (if doc.created_by ≠ "" then ["*Created by: " ++ doc.created_by ++ "*\n"] else [])

/-- Embedding of `DocumentExporter.to_markdown` (export.py lines 45-94):
`"\n".join(md_lines)` over header, metadata block, section walk and
footer. -/
def to_markdown (doc : Document) (now : Nat) : String :=
  joinWith "\n" (bodyLines doc ++ footerLines doc now)

/-- One worksheet written by `to_excel`: its name, header row and data
rows. -/
structure Worksheet where
  sheetName : String
  headers : List String
  rows : List (List String)
deriving DecidableEq

/-- Embedding of the table-content parser shared by `to_excel` (export.py
lines 475-488): strip and drop blank lines, branch on a leading pipe.
When the stripped line list is empty the Python `else` branch evaluates
`lines[0]` and raises `IndexError`; this is the `Except.error` case. -/
def parseTable (content : String) : Except String (List String × List (List String)) :=
  let lines := ((pySplit content '\n').map pyStrip).filter (fun l => l ≠ "")
  match lines with
  | [] => Except.error "IndexError: list index out of range"
  | l0 :: restLines =>
    if startsWithPipe l0 then
      Except.ok
        (((pySplit (pyStripPipes l0) '|').map pyStrip),
         ((restLines.drop 1).filter startsWithPipe).map
           (fun line => (pySplit (pyStripPipes line) '|').map pyStrip))
    else
      Except.ok
        (((pySplit l0 ',').map pyStrip),
         restLines.map (fun line => (pySplit line ',').map pyStrip))

/-- The per-section worksheet loop of `to_excel` (export.py lines
467-497), threading the running `sheet_count`.  A worksheet is created
exactly when `content_type == "table"` and `content` is truthy
(non-empty, whitespace-only included). -/
def excelSheets (count : Nat) : List Section → Except String (List Worksheet)
  | [] => Except.ok []
  | sec :: rest =>
    if sec.content_type = "table" && sec.content ≠ "" then
      let count2 := count + 1
      let name :=
        if sec.title.data.length > 25 then pyTake 25 sec.title ++ "_" ++ decRepr count2
        else pyTake 31 sec.title
      match parseTable sec.content with
      | Except.error e => Except.error e
      | Except.ok (hs, rs) =>
        (excelSheets count2 rest).map (fun ws => (⟨name, hs, rs⟩ : Worksheet) :: ws)
    else excelSheets count rest

/-- Embedding of `DocumentExporter.to_excel` on the primary (xlsxwriter)
path (export.py lines 447-501): the fixed Overview sheet always succeeds,
so the outcome of the export is that of the per-section worksheet loop. -/
def to_excel (doc : Document) : Except String (List Worksheet) :=
  excelSheets 0 doc.sections

/-- The outcome of one export branch.  The renderers not needed by any
claim (`to_docx`, `to_pdf`, `to_html`) carry no payload here; what matters
for the dispatch claims is which branch is taken and whether it raises. -/
inductive ExportOut where
  | docxOut
  | pdfOut
  | htmlOut
  | excelOut (sheets : List Worksheet)
  | markdownOut (text : String)
deriving DecidableEq

/-- Embedding of `DocumentExporter.export_document` (export.py lines
19-43): lower-case the tag, dispatch over the five literal branches,
raise `ValueError(f"Unsupported format: {format}")` otherwise. -/
def export_document (doc : Document) (format : String) (now : Nat) :
    Except String ExportOut :=
  let f := pyLower format
  if f = "docx" then Except.ok ExportOut.docxOut
  else if f = "pdf" then Except.ok ExportOut.pdfOut
  else if f = "html" then Except.ok ExportOut.htmlOut
  else if f = "excel" then (to_excel doc).map ExportOut.excelOut
  else if f = "markdown" then Except.ok (ExportOut.markdownOut (to_markdown doc now))
  else Except.error ("Unsupported format: " ++ f)

/-! ### Translation (src/sopgen/translation.py).  The external Google
translation service is an explicit oracle parameter
`service source_code target_code text`; the claims concern the paths that
never consult it. -/

/-- The `SUPPORTED_LANGUAGES` table (translation.py lines 17-36). -/
def SUPPORTED_LANGUAGES : List (String × String) :=
  [("Hindi", "hi"), ("Tamil", "ta"), ("Telugu", "te"), ("Gujarati", "gu"),
   ("Marathi", "mr"), ("Bengali", "bn"), ("Spanish", "es"), ("French", "fr"),
   ("German", "de"), ("Arabic", "ar"), ("Chinese (Simplified)", "zh-CN"),
   ("Japanese", "ja"), ("English", "en")]

/-- The name-to-code resolution of `translate_text` (translation.py lines
71-74): a key of `SUPPORTED_LANGUAGES` maps to its code, anything else is
taken to already be a code. -/
def resolveTargetCode (target_language : String) : String :=
  match SUPPORTED_LANGUAGES.find? (fun p => p.1 == target_language) with
  | some p => p.2
  | none => target_language

/-- The chunk-accumulation loop of `DocumentTranslator._split_text`
(translation.py lines 113-131). -/
def splitTextAux (max_length : Nat) : List String → String → List String
  | [], current => if current ≠ "" then [current] else []
  | para :: rest, current =>
    if current.data.length + para.data.length + 2 ≤ max_length then
      if current ≠ "" then splitTextAux max_length rest (current ++ "\n\n" ++ para)
      else splitTextAux max_length rest para
    else
      if current ≠ "" then current :: splitTextAux max_length rest para
      else splitTextAux max_length rest para

/-- Embedding of `DocumentTranslator._split_text` (translation.py lines
102-131). -/
def split_text (text : String) (max_length : Nat) : List String :=
  splitTextAux max_length ((splitOnNlNl text.data).map String.mk) ""

/-- Embedding of `DocumentTranslator.translate_text` (translation.py
lines 55-100).  `not text or not text.strip()` is equivalent to the strip
being empty; the service oracle stands for `GoogleTranslator.translate`. -/
def translate_text (service : String → String → String → String)
    (text target_language source_language : String) : String :=
  if pyStrip text = "" then text
  else
    let target_code := resolveTargetCode target_language
    if target_code = "en" then text
    else if text.data.length ≤ 4500 then service source_language target_code text
    else
      joinWith "\n\n"
        ((split_text text 4500).map (fun chunk =>
          if pyStrip chunk ≠ "" then service source_language target_code chunk
          else chunk))

/-! ### Invariant predicates and concrete fixtures used by the claims. -/

/-- `[0, 1, ..., n-1]` as integers: the `order` values the spec demands
after any structural change. -/
def intRange (n : Nat) : List Int := (List.range n).map Int.ofNat

/-- Spec invariant: each `order` equals the index of the section in the
ordered sequence, with no gaps and no duplicates. -/
def ordersOK (l : List Section) : Prop :=
  l.map (fun s => s.order) = intRange l.length

/-- Spec invariant: all stored `version_id` values are exactly
`1, 2, ..., count(versions)` in order — 1-based, strictly monotonic,
never reused. -/
def versionIdsOK (d : Document) : Prop :=
  d.versions.map (fun v => v.version_id) =
    (List.range d.versions.length).map (fun k => k + 1)

/-- Spec invariant: once approved, every section is locked. -/
def approvedLocked (d : Document) : Prop :=
  d.approved = true → ∀ s ∈ d.sections, s.locked = true

/-- Whether an operation is an `add_section` call. -/
def isAdd : Op → Bool
  | Op.add _ _ _ _ => true
  | _ => false

/-- Whether an operation is an `add_section` call that omits the `order`
argument, or a `remove_section` call: the structural operations of the
invariant claim, with the library-assigned order. -/
def structuralDefault : Op → Bool
  | Op.add _ _ _ none => true
  | Op.remove _ => true
  | _ => false

/-- No operation of the list is an `add_section` call. -/
def noAdds (ops : List Op) : Bool := ops.all (fun op => ! isAdd op)

/-- No `add_section` call occurs anywhere after an `approve` call. -/
def noAddAfterApprove : List Op → Bool
  | [] => true
  | Op.approveOp _ _ :: rest => noAdds rest && noAddAfterApprove rest
  | _ :: rest => noAddAfterApprove rest

/-- A document with one locked section. -/
def lockedDoc : Document :=
  ⟨"T", "", [⟨"A", "old", "text", false, true, 0, []⟩], "", 0, 0, [], false, none, [], ""⟩

/-- A document whose single section is a table with whitespace-only
content: the spreadsheet export input the skip rule is about. -/
def wsTableDoc : Document :=
  ⟨"T", "", [⟨"Tab", " ", "table", false, false, 0, []⟩], "", 0, 0, [], false, none, [], ""⟩

/-- A small document with one section, one logged version and non-empty
metadata. -/
def sampleDoc : Document :=
  ⟨"Thermal Cycling Test", "D-1",
   [⟨"Purpose", "P", "text", false, false, 0, []⟩],
   "bob", 0, 2,
   [⟨1, 2, "bob", "doer", "init", [⟨"Purpose", "P", "text", false, false, 0, []⟩]⟩],
   false, none, [("company", "ACME")], ""⟩

/-- Approve the document, then add a section: the operation sequence that
separates the approval invariant from the code. -/
def c1ops : List Op :=
  [Op.add "Intro" "t" "text" none, Op.approveOp "alice" 1, Op.add "Extra" "x" "text" none]

/-- Decidable equality for `Except`, needed to evaluate export outcomes. -/
instance {e a : Type} [DecidableEq e] [DecidableEq a] : DecidableEq (Except e a) := fun x y =>
  match x, y with
  | Except.error u, Except.error v =>
    if h : u = v then isTrue (by rw [h]) else isFalse (by intro hh; cases hh; exact h rfl)
  | Except.ok u, Except.ok v =>
    if h : u = v then isTrue (by rw [h]) else isFalse (by intro hh; cases hh; exact h rfl)
  | Except.error _, Except.ok _ => isFalse (by intro hh; cases hh)
  | Except.ok _, Except.error _ => isFalse (by intro hh; cases hh)

/-! ### Helper lemmas -/

theorem ofDigitsNat_natDigitsAux (fuel : Nat) :
    ∀ n, n ≤ fuel → ofDigitsNat (natDigitsAux fuel n) = n := by
  induction fuel with
  | zero => intro n h; interval_cases n; rfl
  | succ fuel ih =>
    intro n h
    match n with
    | 0 => rfl
    | m + 1 =>
      have hdiv : (m + 1) / 10 ≤ fuel := by
        have h10 : (m + 1) / 10 < m + 1 := Nat.div_lt_self (Nat.succ_pos m) (by norm_num)
        omega
      simp only [natDigitsAux, ofDigitsNat, ih _ hdiv]
      omega

theorem ofDigitsNat_natDigits (n : Nat) : ofDigitsNat (natDigits n) = n :=
  ofDigitsNat_natDigitsAux n n le_rfl

theorem natDigitsAux_lt (fuel : Nat) :
    ∀ n, ∀ d ∈ natDigitsAux fuel n, d < 10 := by
  induction fuel with
  | zero => intro n d hd; simp [natDigitsAux] at hd
  | succ fuel ih =>
    intro n d hd
    match n with
    | 0 => simp [natDigitsAux] at hd
    | m + 1 =>
      simp only [natDigitsAux, List.mem_cons] at hd
      rcases hd with rfl | hd
      · exact Nat.mod_lt _ (by norm_num)
      · exact ih _ d hd

theorem char_digit_roundtrip (d : Nat) (h : d < 10) :
    (Char.ofNat (48 + d)).toNat - 48 = d := by
  interval_cases d <;> decide

theorem decParse_decRepr (n : Nat) : decParse (decRepr n) = n := by
  unfold decParse decRepr
  show ofDigitsNat
    ((((natDigits n).reverse.map (fun d => Char.ofNat (48 + d))).map
      (fun c => c.toNat - 48)).reverse) = n
  rw [List.map_map, List.map_reverse, List.reverse_reverse]
  have hmap : (natDigits n).map
      ((fun c : Char => c.toNat - 48) ∘ (fun d => Char.ofNat (48 + d))) =
      (natDigits n).map id := by
    apply List.map_congr_left
    intro d hd
    exact char_digit_roundtrip d (natDigitsAux_lt n n d hd)
  rw [hmap, List.map_id]
  exact ofDigitsNat_natDigits n

theorem joinWith_append (sep : String) (a b : List String)
    (ha : a ≠ []) (hb : b ≠ []) :
    joinWith sep (a ++ b) = joinWith sep a ++ sep ++ joinWith sep b := by
  induction a with
  | nil => exact absurd rfl ha
  | cons x a ih =>
    cases a with
    | nil =>
      cases b with
      | nil => exact absurd rfl hb
      | cons y b => simp [joinWith]
    | cons z a2 =>
      have hrec := ih (by simp)
      show joinWith sep (x :: z :: (a2 ++ b)) = _
      rw [joinWith]
      have : z :: (a2 ++ b) = (z :: a2) ++ b := by simp
      rw [this, hrec, joinWith]
      simp [String.append_assoc]

theorem find?_decomp {α : Type} {p : α → Bool} {l : List α} {s : α}
    (h : l.find? p = some s) :
    ∃ pre post, l = pre ++ s :: post ∧ (∀ x ∈ pre, p x = false) ∧ p s = true := by
  induction l with
  | nil => simp at h
  | cons a l ih =>
    cases hp : p a with
    | true =>
      rw [List.find?_cons, hp] at h
      obtain rfl : a = s := by simpa using h
      exact ⟨[], l, rfl, by simp, hp⟩
    | false =>
      rw [List.find?_cons, hp] at h
      obtain ⟨pre, post, rfl, hpre, hs⟩ := ih h
      refine ⟨a :: pre, post, rfl, ?_, hs⟩
      intro x hx
      rcases List.mem_cons.mp hx with rfl | hx
      · exact hp
      · exact hpre x hx

theorem updateFirst_append (t c : String) (ai : Bool) (pre post : List Section)
    (s : Section) (hpre : ∀ x ∈ pre, (x.title == t) = false)
    (hs : (s.title == t) = true) :
    updateFirst t c ai (pre ++ s :: post) =
      pre ++ { s with content := c, ai_generated := ai } :: post := by
  induction pre with
  | nil => simp [updateFirst, hs]
  | cons a pre ih =>
    have ha := hpre a (by simp)
    simp only [List.cons_append, updateFirst, ha]
    rw [if_neg (by simp [ha])]
    exact congrArg (fun l => a :: l) (ih (fun x hx => hpre x (by simp [hx])))

theorem update_section_locked_noop (d : Document) (t c : String) (ai : Bool)
    (now : Nat) (h : ∀ s ∈ d.sections, s.locked = true) :
    update_section d t c ai now = (d, false) := by
  unfold update_section
  cases hf : d.sections.find? (fun sec => sec.title == t) with
  | none => rfl
  | some s =>
    have := h s (List.mem_of_find?_eq_some hf)
    simp [this]

theorem insertByOrder_append (s : Section) (acc : List Section)
    (h : ∀ t ∈ acc, ¬ s.order < t.order) : insertByOrder s acc = acc ++ [s] := by
  induction acc with
  | nil => rfl
  | cons a acc ih =>
    have ha := h a (by simp)
    simp only [insertByOrder, if_neg ha, List.cons_append]
    rw [ih (fun t ht => h t (by simp [ht]))]

theorem foldl_insert_sorted (l : List Section) :
    ∀ acc : List Section, (∀ a ∈ acc, ∀ b ∈ l, a.order ≤ b.order) →
    l.Pairwise (fun a b => a.order ≤ b.order) →
    l.foldl (fun acc s => insertByOrder s acc) acc = acc ++ l := by
  induction l with
  | nil => intro acc _ _; simp
  | cons b l ih =>
    intro acc hcross hl
    rw [List.foldl_cons,
      insertByOrder_append b acc (fun t ht => not_lt.mpr (hcross t ht b (by simp)))]
    rw [ih (acc ++ [b]) ?_ (List.pairwise_cons.mp hl).2]
    · simp
    · intro a ha c hc
      rcases List.mem_append.mp ha with ha | ha
      · exact hcross a ha c (by simp [hc])
      · obtain rfl : a = b := by simpa using ha
        exact (List.pairwise_cons.mp hl).1 c hc

theorem sortByOrder_eq_self (l : List Section)
    (hl : l.Pairwise (fun a b => a.order ≤ b.order)) : sortByOrder l = l := by
  have := foldl_insert_sorted l [] (by simp) hl
  simpa [sortByOrder] using this

theorem intRange_pairwise (n : Nat) :
    (intRange n).Pairwise (fun a b : Int => a ≤ b) := by
  unfold intRange
  rw [List.pairwise_map]
  apply List.Pairwise.imp ?_ (List.pairwise_le_range n)
  intro a b hab
  exact Int.ofNat_le.mpr hab

theorem pairwise_of_orders {l : List Section} (h : l.map (fun s => s.order) = intRange l.length) :
    l.Pairwise (fun a b => a.order ≤ b.order) := by
  have := h ▸ intRange_pairwise l.length
  exact List.pairwise_map.mp this

theorem reorderFrom_map_order (l : List Section) :
    ∀ i, (reorderFrom i l).map (fun s => s.order) =
      (List.range l.length).map (fun k => Int.ofNat (i + k)) := by
  induction l with
  | nil => intro i; rfl
  | cons s l ih =>
    intro i
    simp only [reorderFrom, List.map_cons, List.length_cons,
      List.range_succ_eq_map, List.map_map, ih (i + 1)]
    congr 1
    apply List.map_congr_left
    intro k _
    simp only [Function.comp]
    congr 1
    omega

theorem reorderFrom_length (l : List Section) : ∀ i, (reorderFrom i l).length = l.length := by
  induction l with
  | nil => intro i; rfl
  | cons s l ih => intro i; simp [reorderFrom, ih (i + 1)]

theorem ordersOK_reorder (l : List Section) : ordersOK (reorderFrom 0 l) := by
  unfold ordersOK
  rw [reorderFrom_map_order l 0, reorderFrom_length l 0]
  unfold intRange
  apply List.map_congr_left
  intro k _
  congr 1
  omega

theorem ordersOK_add (d : Document) (t c ct : String) (h : ordersOK d.sections) :
    ordersOK (add_section d t c ct none).sections := by
  have hmap : (d.sections ++
      [(⟨t, c, ct, false, false, Int.ofNat d.sections.length, []⟩ : Section)]).map
        (fun s => s.order) = intRange (d.sections.length + 1) := by
    rw [List.map_append, h]
    unfold intRange
    rw [List.range_succ, List.map_append]
    rfl
  have hsorted : (d.sections ++
      [(⟨t, c, ct, false, false, Int.ofNat d.sections.length, []⟩ : Section)]).Pairwise
        (fun a b => a.order ≤ b.order) := by
    apply pairwise_of_orders
    rw [hmap]
    congr 1
    simp
  show ordersOK (sortByOrder (d.sections ++ [⟨t, c, ct, false, false, _, []⟩]))
  rw [sortByOrder_eq_self _ hsorted]
  unfold ordersOK
  rw [hmap]
  congr 1
  simp

theorem versions_applyOp (d : Document) (op : Op) :
    ∃ t, (applyOp d op).versions = d.versions ++ t := by
  cases op with
  | add t c ct o => exact ⟨[], by simp [applyOp, add_section]⟩
  | remove t => exact ⟨[], by simp [applyOp, remove_section]⟩
  | update t c ai now =>
    refine ⟨[], ?_⟩
    simp only [applyOp, update_section]
    cases hf : d.sections.find? (fun sec => sec.title == t) with
    | none => simp
    | some s => by_cases hl : s.locked <;> simp [hl]
  | log u r ch now => exact ⟨_, rfl⟩
  | approveOp u now => exact ⟨_, rfl⟩

theorem versions_applyOps (ops : List Op) :
    ∀ d : Document, ∃ t, (applyOps d ops).versions = d.versions ++ t := by
  induction ops with
  | nil => intro d; exact ⟨[], by simp [applyOps]⟩
  | cons op ops ih =>
    intro d
    obtain ⟨t1, h1⟩ := versions_applyOp d op
    obtain ⟨t2, h2⟩ := ih (applyOp d op)
    exact ⟨t1 ++ t2, by simp [applyOps, h2, h1]⟩

theorem versionIdsOK_applyOp (d : Document) (op : Op) (h : versionIdsOK d) :
    versionIdsOK (applyOp d op) := by
  cases op with
  | add t c ct o => exact h
  | remove t => exact h
  | update t c ai now =>
    have : (applyOp d (Op.update t c ai now)).versions = d.versions := by
      simp only [applyOp, update_section]
      cases hf : d.sections.find? (fun sec => sec.title == t) with
      | none => simp
      | some s => by_cases hl : s.locked <;> simp [hl]
    unfold versionIdsOK
    rw [this]
    exact h
  | log u r ch now =>
    unfold versionIdsOK at h ⊢
    simp only [applyOp, log_version, List.map_append, List.length_append, h]
    simp [List.range_succ]
  | approveOp u now =>
    unfold versionIdsOK at h ⊢
    simp only [applyOp, approve, log_version, List.map_append, List.length_append, h]
    simp [List.range_succ]

theorem versionIdsOK_applyOps (ops : List Op) :
    ∀ d : Document, versionIdsOK d → versionIdsOK (applyOps d ops) := by
  induction ops with
  | nil => intro d h; exact h
  | cons op ops ih => intro d h; exact ih _ (versionIdsOK_applyOp d op h)

theorem update_section_approved (d : Document) (t c : String) (ai : Bool) (now : Nat) :
    (update_section d t c ai now).1.approved = d.approved := by
  unfold update_section
  cases hf : d.sections.find? (fun sec => sec.title == t) with
  | none => rfl
  | some s => by_cases hl : s.locked <;> simp [hl]

theorem locked_of_mem_reorderFrom {s : Section} (l : List Section) :
    ∀ i, s ∈ reorderFrom i l → ∃ x ∈ l, s.locked = x.locked := by
  induction l with
  | nil => intro i h; simp [reorderFrom] at h
  | cons a l ih =>
    intro i h
    rcases List.mem_cons.mp h with rfl | h
    · exact ⟨a, by simp, rfl⟩
    · obtain ⟨x, hx, he⟩ := ih (i + 1) h
      exact ⟨x, by simp [hx], he⟩

theorem approvedLocked_add (d : Document) (t c ct : String) (o : Option Int)
    (h : d.approved = false) : approvedLocked (add_section d t c ct o) := by
  intro hap
  have hd : d.approved = true := hap
  rw [h] at hd
  cases hd

theorem approvedLocked_applyOp_nonadd (d : Document) (op : Op)
    (h : approvedLocked d) (hop : isAdd op = false) :
    approvedLocked (applyOp d op) := by
  cases op with
  | add t c ct o => simp [isAdd] at hop
  | remove t =>
    intro hap s hs
    have hd : d.approved = true := hap
    obtain ⟨x, hx, he⟩ := locked_of_mem_reorderFrom _ 0 hs
    rw [he]
    exact h hd x (List.mem_of_mem_filter hx)
  | update t c ai now =>
    cases hdap : d.approved with
    | true =>
      have hall := h hdap
      have : update_section d t c ai now = (d, false) :=
        update_section_locked_noop d t c ai now hall
      intro hap s hs
      rw [show applyOp d (Op.update t c ai now) = (update_section d t c ai now).1 from rfl,
        this] at hs
      exact hall s hs
    | false =>
      intro hap
      have : (applyOp d (Op.update t c ai now)).approved = d.approved :=
        update_section_approved d t c ai now
      rw [hap, hdap] at this
      cases this
  | log u r ch now =>
    intro hap s hs
    exact h hap s hs
  | approveOp u now =>
    intro hap s hs
    have : s ∈ d.sections.map (fun sec => { sec with locked := true }) := hs
    obtain ⟨x, _, rfl⟩ := List.mem_map.mp this
    rfl

theorem noAdds_tail {op : Op} {ops : List Op} (h : noAdds (op :: ops) = true) :
    noAdds ops = true := by
  simp only [noAdds, List.all_cons, Bool.and_eq_true] at h ⊢
  exact h.2

theorem noAddAfterApprove_tail {op : Op} {ops : List Op}
    (h : noAddAfterApprove (op :: ops) = true) : noAddAfterApprove ops = true := by
  cases op with
  | approveOp u now =>
    simp only [noAddAfterApprove, Bool.and_eq_true] at h
    exact h.2
  | add t c ct o => exact h
  | remove t => exact h
  | update t c ai now => exact h
  | log u r ch now => exact h

theorem noAddAfterApprove_approve_head {u : String} {now : Nat} {ops : List Op}
    (h : noAddAfterApprove (Op.approveOp u now :: ops) = true) : noAdds ops = true := by
  simp only [noAddAfterApprove, Bool.and_eq_true] at h
  exact h.1

theorem applyOp_approved_or (d : Document) (op : Op) :
    (applyOp d op).approved = d.approved ∨ ∃ u n, op = Op.approveOp u n := by
  cases op with
  | add t c ct o => exact Or.inl rfl
  | remove t => exact Or.inl rfl
  | update t c ai now => exact Or.inl (update_section_approved d t c ai now)
  | log u r ch now => exact Or.inl rfl
  | approveOp u now => exact Or.inr ⟨u, now, rfl⟩

/-! ### Claim theorems -/

/-- C5: `approve(user)` sets `approved = true` and `approver = user`, sets
`locked = true` on every section present at call time (the new section list
is exactly the old one with every lock bit set), and appends exactly one
new `DocumentVersion` whose `changes` field is `"Document approved"` and
whose `role` is `"approver"`. -/
theorem approve_spec (d : Document) (u : String) (now : Nat) :
    (approve d u now).approved = true ∧
    (approve d u now).approver = some u ∧
    (approve d u now).sections = d.sections.map (fun sec => { sec with locked := true }) ∧
    (∀ s ∈ (approve d u now).sections, s.locked = true) ∧
    (approve d u now).versions = d.versions ++
      [⟨d.versions.length + 1, now, u, "approver", "Document approved",
        d.sections.map (fun sec => { sec with locked := true })⟩] := by
  refine ⟨rfl, rfl, rfl, ?_, rfl⟩
  intro s hs
  have : s ∈ d.sections.map (fun sec => { sec with locked := true }) := hs
  obtain ⟨x, _, rfl⟩ := List.mem_map.mp this
  rfl

/-- C5 witness: the theorem applied to a concrete document. -/
theorem approve_spec_witness :
    (approve lockedDoc "u" 3).approved = true ∧
    (approve lockedDoc "u" 3).versions.length = lockedDoc.versions.length + 1 :=
  ⟨(approve_spec lockedDoc "u" 3).1, by
    rw [(approve_spec lockedDoc "u" 3).2.2.2.2]
    simp⟩

/-- C3: `update_section(title, content, ai_generated)` is total and returns
a boolean.  If no section with the title exists, or the first matching
section is locked, it returns `False` and the document is unchanged.
Otherwise it rewrites exactly the first matching section, overwriting its
`content` and `ai_generated` (every other field of that section and every
other section unchanged), sets `last_modified` to the current clock, leaves
every other document field unchanged, and returns `True`. -/
theorem update_section_spec (d : Document) (t c : String) (ai : Bool) (now : Nat) :
    (d.sections.find? (fun sec => sec.title == t) = none →
      update_section d t c ai now = (d, false)) ∧
    (∀ s, d.sections.find? (fun sec => sec.title == t) = some s → s.locked = true →
      update_section d t c ai now = (d, false)) ∧
    (∀ s, d.sections.find? (fun sec => sec.title == t) = some s → s.locked = false →
      ∃ pre post, d.sections = pre ++ s :: post ∧
        (∀ x ∈ pre, (x.title == t) = false) ∧ (s.title == t) = true ∧
        update_section d t c ai now =
          ({ d with
              sections := pre ++ { s with content := c, ai_generated := ai } :: post,
              last_modified := now }, true)) := by
  refine ⟨?_, ?_, ?_⟩
  · intro h
    unfold update_section
    rw [h]
  · intro s hf hl
    unfold update_section
    rw [hf]
    simp [hl]
  · intro s hf hl
    obtain ⟨pre, post, hdec, hpre, hp⟩ := find?_decomp hf
    refine ⟨pre, post, hdec, hpre, hp, ?_⟩
    have hred : update_section d t c ai now =
        ({ d with sections := updateFirst t c ai d.sections, last_modified := now }, true) := by
      unfold update_section
      rw [hf]
      exact if_neg (by simp [hl])
    have hu : updateFirst t c ai d.sections =
        pre ++ { s with content := c, ai_generated := ai } :: post := by
      rw [hdec]
      exact updateFirst_append t c ai pre post s hpre hp
    rw [hred, hu]

/-- C3 witness: on a document whose only section is locked, the update
reports failure and changes nothing. -/
theorem update_section_spec_witness :
    update_section lockedDoc "A" "new" false 9 = (lockedDoc, false) :=
  (update_section_spec lockedDoc "A" "new" false 9).2.1
    ⟨"A", "old", "text", false, true, 0, []⟩ rfl rfl

/-- C2 counterexample: the claim includes `add_section` calls passing an
explicit `order` argument; a single `add_section("A", order=5)` on an empty
document leaves a section whose `order` is 5 at index 0, so the orders are
not the indices. -/
theorem explicit_order_counterexample :
    ¬ ordersOK (applyOps (mkDocument "SOP" 0) [Op.add "A" "" "text" (some 5)]).sections := by
  simp only [ordersOK]
  decide

/-- C2 (amended): for every sequence of `add_section`/`remove_section`
calls in which every `add_section` omits the `order` argument, starting
from a document whose `order` values equal the indices (e.g. a fresh
document), afterwards each `order` equals the index of its section, with
no gaps and no duplicates. -/
theorem orders_are_indices (ops : List Op) (d : Document)
    (hd : ordersOK d.sections)
    (hops : ∀ op ∈ ops, structuralDefault op = true) :
    ordersOK (applyOps d ops).sections := by
  induction ops generalizing d with
  | nil => exact hd
  | cons op ops ih =>
    show ordersOK (applyOps (applyOp d op) ops).sections
    refine ih (applyOp d op) ?_ (fun op2 h2 => hops op2 (by simp [h2]))
    have hop := hops op (by simp)
    cases op with
    | add t c ct o =>
      cases o with
      | none => exact ordersOK_add d t c ct hd
      | some v => simp [structuralDefault] at hop
    | remove t => exact ordersOK_reorder _
    | update t c ai now => simp [structuralDefault] at hop
    | log u r ch now => simp [structuralDefault] at hop
    | approveOp u now => simp [structuralDefault] at hop

/-- C2 witness: the amended invariant at a concrete add/add/remove
sequence. -/
theorem orders_are_indices_witness :
    ordersOK (applyOps (mkDocument "SOP" 0)
      [Op.add "A" "" "text" none, Op.add "B" "" "text" none, Op.remove "A"]).sections :=
  orders_are_indices
    [Op.add "A" "" "text" none, Op.add "B" "" "text" none, Op.remove "A"]
    (mkDocument "SOP" 0) (by simp only [ordersOK]; decide) (by decide)

/-- C4: `log_version` appends exactly one version whose `version_id` is
`count(versions) + 1` and whose `content_snapshot` is the section list at
log time; under every sequence of operations the stored ids remain exactly
`1..N` (strictly monotonic, never reused); and the stored versions —
snapshots included — are never modified by later operations: the versions
list only ever grows by appending. -/
theorem log_version_monotonic (d : Document) (ops : List Op)
    (u r ch : String) (now : Nat) :
    (log_version d u r ch now).versions =
      d.versions ++ [⟨d.versions.length + 1, now, u, r, ch, d.sections⟩] ∧
    (versionIdsOK d → versionIdsOK (applyOps d ops)) ∧
    (∃ t, (applyOps d ops).versions = d.versions ++ t) :=
  ⟨rfl, versionIdsOK_applyOps ops d, versions_applyOps ops d⟩

/-- C4 witness: version ids after a concrete log/update/approve sequence
from a fresh document. -/
theorem log_version_monotonic_witness :
    versionIdsOK (applyOps (mkDocument "T" 0)
      [Op.log "u" "doer" "edit" 5, Op.approveOp "boss" 6]) :=
  (log_version_monotonic (mkDocument "T" 0)
    [Op.log "u" "doer" "edit" 5, Op.approveOp "boss" 6] "u" "doer" "edit" 5).2.1
    (by simp only [versionIdsOK]; decide)

/-- C1 counterexample: calling `add_section` after `approve` leaves
`approved = true` with an unlocked section, and `update_section` on that
section succeeds and mutates the state — so the claimed invariant over all
operation sequences fails on the code. -/
theorem approve_then_add_counterexample :
    (applyOps (mkDocument "SOP" 0) c1ops).approved = true ∧
    (applyOps (mkDocument "SOP" 0) c1ops).sections.all (fun s => s.locked) = false ∧
    (update_section (applyOps (mkDocument "SOP" 0) c1ops) "Extra" "hacked" false 2).2
      = true ∧
    (update_section (applyOps (mkDocument "SOP" 0) c1ops) "Extra" "hacked" false 2).1
      ≠ applyOps (mkDocument "SOP" 0) c1ops := by
  refine ⟨by decide, by decide, by decide, by decide⟩

/-- C1 (amended): restricted to operation sequences in which no
`add_section` call occurs after an `approve` call (the only way the code
lets an unlocked section in next to `approved = true`), the invariant
holds: starting from a document satisfying it (with no pending adds if
already approved), whenever `approved = true` afterwards, every section is
locked, and every `update_section` attempt returns `False` and changes
nothing. -/
theorem approved_locks_all (ops : List Op) (d : Document)
    (hd : approvedLocked d)
    (hstart : d.approved = true → noAdds ops = true)
    (hops : noAddAfterApprove ops = true) :
    approvedLocked (applyOps d ops) ∧
    ((applyOps d ops).approved = true →
      ∀ t c ai now, update_section (applyOps d ops) t c ai now
        = (applyOps d ops, false)) := by
  have main : approvedLocked (applyOps d ops) := by
    induction ops generalizing d with
    | nil => exact hd
    | cons op ops ih =>
      show approvedLocked (applyOps (applyOp d op) ops)
      cases hadd : isAdd op with
      | true =>
        cases op with
        | add t c ct o =>
          have hfalse : d.approved = false := by
            cases hv : d.approved with
            | false => rfl
            | true =>
              have := hstart hv
              simp [noAdds, isAdd] at this
          refine ih (applyOp d (Op.add t c ct o))
            (approvedLocked_add d t c ct o hfalse) ?_
            (noAddAfterApprove_tail hops)
          intro hap
          have : d.approved = true := hap
          rw [hfalse] at this
          cases this
        | remove t => simp [isAdd] at hadd
        | update t c ai now => simp [isAdd] at hadd
        | log u r ch now => simp [isAdd] at hadd
        | approveOp u now => simp [isAdd] at hadd
      | false =>
        refine ih (applyOp d op)
          (approvedLocked_applyOp_nonadd d op hd hadd) ?_
          (noAddAfterApprove_tail hops)
        intro hap
        rcases applyOp_approved_or d op with he | ⟨u, n, rfl⟩
        · exact noAdds_tail (hstart (he ▸ hap))
        · exact noAddAfterApprove_approve_head hops
  exact ⟨main, fun hap t c ai now =>
    update_section_locked_noop (applyOps d ops) t c ai now (main hap)⟩

/-- C1 witness: with an add-then-approve sequence, the approved document
rejects the update without change. -/
theorem approved_locks_all_witness :
    update_section (applyOps (mkDocument "T" 0)
      [Op.add "A" "a" "text" none, Op.approveOp "u" 1]) "A" "h" false 5
    = (applyOps (mkDocument "T" 0)
        [Op.add "A" "a" "text" none, Op.approveOp "u" 1], false) :=
  (approved_locks_all [Op.add "A" "a" "text" none, Op.approveOp "u" 1]
    (mkDocument "T" 0)
    (fun hap => absurd hap (by decide))
    (fun hap => absurd hap (by decide))
    (by decide)).2 (by decide) "A" "h" false 5

theorem Section_roundtrip (s : Section) :
    Section.from_dict (Section.to_dict s) = s := rfl

theorem map_Section_roundtrip (l : List Section) :
    l.map (Section.from_dict ∘ Section.to_dict) = l := by
  induction l with
  | nil => rfl
  | cons s l ih => simp [Function.comp, Section_roundtrip, ih]

theorem DocumentVersion_roundtrip (v : DocumentVersion) :
    DocumentVersion.from_dict (DocumentVersion.to_dict v) = v := by
  cases v with
  | mk vid ts u r ch snap =>
    simp [DocumentVersion.to_dict, DocumentVersion.from_dict, decParse_decRepr,
      List.map_map, map_Section_roundtrip]

theorem map_DocumentVersion_roundtrip (l : List DocumentVersion) :
    l.map (DocumentVersion.from_dict ∘ DocumentVersion.to_dict) = l := by
  induction l with
  | nil => rfl
  | cons v l ih => simp [Function.comp, DocumentVersion_roundtrip, ih]

/-- C6: for a document with at least one section, at least one version and
non-empty metadata, deserializing the serialized form gives back a
document equal to the original in every field — timestamps round-trip
through their textual encoding, and every section, metadata entry and
nested version snapshot is restored. -/
theorem to_dict_from_dict_roundtrip (d : Document)
    (h1 : d.sections ≠ []) (h2 : d.versions ≠ []) (h3 : d.metadata ≠ []) :
    Document.from_dict (Document.to_dict d) = d := by
  cases d with
  | mk t dn secs cb ca lm vers ap apr md tn =>
    simp [Document.to_dict, Document.from_dict, decParse_decRepr,
      List.map_map, map_Section_roundtrip, map_DocumentVersion_roundtrip]

/-- C6 witness: the round trip at a concrete document with one section,
one version and non-empty metadata. -/
theorem to_dict_from_dict_roundtrip_witness :
    sampleDoc.sections ≠ [] ∧ sampleDoc.versions ≠ [] ∧ sampleDoc.metadata ≠ [] ∧
    Document.from_dict (Document.to_dict sampleDoc) = sampleDoc :=
  ⟨by decide, by decide, by decide,
   to_dict_from_dict_roundtrip sampleDoc (by decide) (by decide) (by decide)⟩

/-- C7: the spreadsheet export violates the skip rule — on a document
whose only section is a table with whitespace-only (non-empty) content,
the code creates a worksheet for it and then crashes with an IndexError
while parsing the blank content (export.py line 487 evaluates `lines[0]`
on an empty list), instead of skipping the section and completing. -/
theorem excel_whitespace_table_index_error :
    wsTableDoc.sections.all (fun sec => pyStrip sec.content == "") = true ∧
    to_excel wsTableDoc = Except.error "IndexError: list index out of range" := by
  refine ⟨by decide, by decide⟩

/-- C8 counterexample: the markdown footer embeds the generation clock
reading, so two exports of the same unchanged document at different times
differ — markdown export is not a function of the document alone. -/
theorem markdown_export_time_dependent :
    export_document sampleDoc "markdown" 0 ≠ export_document sampleDoc "markdown" 1 := by
  decide

/-- C8 (amended): markdown export is a deterministic function of the
document and the current clock reading only; its output factors into a
body depending only on the document followed by a footer embedding the
generation time, so two exports at the same clock reading are
byte-identical and two exports at different readings differ at most in the
footer. -/
theorem markdown_export_factors (doc : Document) (now : Nat) :
    export_document doc "markdown" now =
      Except.ok (ExportOut.markdownOut
        (joinWith "\n" (bodyLines doc) ++ "\n" ++ joinWith "\n" (footerLines doc now))) := by
  have hstep : export_document doc "markdown" now =
      Except.ok (ExportOut.markdownOut (to_markdown doc now)) := rfl
  rw [hstep]
  unfold to_markdown
  rw [joinWith_append "\n" (bodyLines doc) (footerLines doc now)
    (by unfold bodyLines; simp) (by unfold footerLines; simp)]

/-- C9 counterexample: `export_document` has no `xlsx` branch; the tag
`"xlsx"` falls through to the unsupported-format error instead of being
accepted as a spreadsheet alias. -/
theorem xlsx_rejected :
    export_document sampleDoc "xlsx" 0 = Except.error "Unsupported format: xlsx" := by
  decide

/-- C9 (amended): `export_document` lower-cases the tag and dispatches for
exactly the tags `docx`, `pdf`, `html`, `excel`, `markdown` — `xlsx` is
not accepted — and every other tag produces the unsupported-format
error. -/
theorem export_document_dispatch (doc : Document) (format : String) (now : Nat) :
    (pyLower format = "docx" →
      export_document doc format now = Except.ok ExportOut.docxOut) ∧
    (pyLower format = "pdf" →
      export_document doc format now = Except.ok ExportOut.pdfOut) ∧
    (pyLower format = "html" →
      export_document doc format now = Except.ok ExportOut.htmlOut) ∧
    (pyLower format = "excel" →
      export_document doc format now = (to_excel doc).map ExportOut.excelOut) ∧
    (pyLower format = "markdown" →
      export_document doc format now =
        Except.ok (ExportOut.markdownOut (to_markdown doc now))) ∧
    (pyLower format ∉ ["docx", "pdf", "html", "excel", "markdown"] →
      export_document doc format now =
        Except.error ("Unsupported format: " ++ pyLower format)) := by
  refine ⟨?_, ?_, ?_, ?_, ?_, ?_⟩
  · intro h
    simp only [export_document]
    rw [if_pos h]
  · intro h
    simp only [export_document]
    rw [if_neg (by rw [h]; decide), if_pos h]
  · intro h
    simp only [export_document]
    rw [if_neg (by rw [h]; decide), if_neg (by rw [h]; decide), if_pos h]
  · intro h
    simp only [export_document]
    rw [if_neg (by rw [h]; decide), if_neg (by rw [h]; decide),
      if_neg (by rw [h]; decide), if_pos h]
  · intro h
    simp only [export_document]
    rw [if_neg (by rw [h]; decide), if_neg (by rw [h]; decide),
      if_neg (by rw [h]; decide), if_neg (by rw [h]; decide), if_pos h]
  · intro h
    simp only [List.mem_cons, List.not_mem_nil, or_false, not_or] at h
    obtain ⟨h1, h2, h3, h4, h5⟩ := h
    simp only [export_document]
    rw [if_neg h1, if_neg h2, if_neg h3, if_neg h4, if_neg h5]

/-- C9 witness: a mixed-case markdown tag dispatches to the markdown
renderer. -/
theorem export_document_dispatch_witness :
    export_document sampleDoc "MarkDown" 7 =
      Except.ok (ExportOut.markdownOut (to_markdown sampleDoc 7)) :=
  (export_document_dispatch sampleDoc "MarkDown" 7).2.2.2.2.1 (by decide)

/-- C10: `translate_text` returns its input unchanged — for every possible
behaviour of the external translation service, so in particular without
consulting it — whenever the text is empty or whitespace-only, or the
resolved target-language code is `"en"`. -/
theorem translate_text_skips (service : String → String → String → String)
    (text target_language source_language : String)
    (h : pyStrip text = "" ∨ resolveTargetCode target_language = "en") :
    translate_text service text target_language source_language = text := by
  rcases h with h | h
  · unfold translate_text
    rw [if_pos h]
  · unfold translate_text
    by_cases hs : pyStrip text = ""
    · rw [if_pos hs]
    · rw [if_neg hs]
      simp [h]

/-- C10 witness: translating to English (and a whitespace-only text)
returns the input unchanged for a service that would mangle it. -/
theorem translate_text_skips_witness :
    translate_text (fun _ _ chunk => chunk ++ "!") "hello" "English" "en" = "hello" :=
  translate_text_skips (fun _ _ chunk => chunk ++ "!") "hello" "English" "en"
    (Or.inr (by decide))

end Sopgen
